import Mathlib

/-!
Verification of the cutoff-price resolver of this repository.

The routine under study is `find_price_at_cutoff` in
`src/experiments/build_dataset.py`, together with the quote fallback its
caller `build_dataset` applies to the result.  The Python routine receives a
list of trade dictionaries; of each record it reads only the fields
`created_time` (a string, `''` when the key is missing) and `price` (a
number, `None` when missing).  It sorts the list by the `created_time`
string in descending order (Python's `sorted` with `reverse=True`, a stable
sort comparing strings code point by code point), then scans twice: first
for a record whose parsed time is at or before the cutoff, then for one at
or before the close time.  Records whose time string is empty, fails to
parse, or whose price is `None` are skipped.  On a hit it returns the
record's price, the parsed time, and the length of the whole input list; if
both scans fail it returns two absent fields and the length.

Embedding choices: times are integers (epoch seconds); the external
timestamp-parsing library (`dateutil`) is an explicit parameter
`parse : String → Option Int`, with `none` standing for a raised and caught
parsing failure; Python's string comparison is modelled by `pyStrLe`, a
code-point lexicographic comparison; Python's stable descending sort is
modelled by Mathlib's stable `List.insertionSort` (any two stable sorts of
the same total preorder agree on every input); the exception behaviour of
the routine is modelled separately by `find_price_at_cutoffE`, in which the
external library may signal an error through `Except`.
-/

/-- Code-point lexicographic comparison of character lists: this is exactly
how Python compares two `str` values (shorter prefix first, otherwise first
differing code point decides). -/
def charListLe : List Char → List Char → Bool
  | [], _ => true
  | _ :: _, [] => false
  | a :: as, b :: bs =>
    if a.toNat < b.toNat then true
    else if b.toNat < a.toNat then false
    else charListLe as bs

/-- Python's `<=` on strings, used by `sorted(trades, key=..., reverse=True)`
through the sort key `t.get('created_time', '')`. -/
def pyStrLe (a b : String) : Bool := charListLe a.data b.data

/-- A trade record as consumed by `find_price_at_cutoff`: of the Python
dictionary only `created_time` (with `''` for a missing key, exactly the
default of `t.get('created_time', '')`) and `price` (with `none` for the
Python `None`) are ever read. -/
structure Trade where
  created_time : String
  price : Option ℚ
deriving Repr, DecidableEq

/-- The descending-key comparison used by the sort in the source:
`a` may come before `b` when `b`'s time string is at most `a`'s. -/
def tradeGE (a b : Trade) : Prop := pyStrLe b.created_time a.created_time = true

instance : DecidableRel tradeGE := fun _ _ => inferInstanceAs (Decidable (_ = _))

theorem charListLe_total : ∀ a b, charListLe a b = true ∨ charListLe b a = true := by
  intro a
  induction a with
  | nil => intro b; left; rfl
  | cons x xs ih =>
    intro b
    cases b with
    | nil => right; rfl
    | cons y ys =>
      simp only [charListLe]
      rcases Nat.lt_trichotomy x.toNat y.toNat with h | h | h
      · left; simp [h]
      · have h1 : ¬ x.toNat < y.toNat := by omega
        have h2 : ¬ y.toNat < x.toNat := by omega
        rcases ih ys with h3 | h3
        · left; simp [h1, h2, h3]
        · right; simp [h1, h2, h3]
      · right; simp [h]

theorem charListLe_trans : ∀ a b c, charListLe a b = true → charListLe b c = true →
    charListLe a c = true := by
  intro a
  induction a with
  | nil => intro b c _ _; rfl
  | cons x xs ih =>
    intro b c hab hbc
    cases b with
    | nil => simp [charListLe] at hab
    | cons y ys =>
      cases c with
      | nil => simp [charListLe] at hbc
      | cons z zs =>
        simp only [charListLe] at hab hbc ⊢
        by_cases hxy : x.toNat < y.toNat <;> by_cases hyz : y.toNat < z.toNat
        · simp [show x.toNat < z.toNat by omega]
        · simp only [hyz, if_false] at hbc
          by_cases hzy : z.toNat < y.toNat
          · simp [hzy] at hbc
          · simp [show x.toNat < z.toNat by omega]
        · simp only [hxy, if_false] at hab
          by_cases hyx : y.toNat < x.toNat
          · simp [hyx] at hab
          · simp [show x.toNat < z.toNat by omega]
        · simp only [hxy, if_false] at hab
          simp only [hyz, if_false] at hbc
          by_cases hyx : y.toNat < x.toNat
          · simp [hyx] at hab
          · by_cases hzy : z.toNat < y.toNat
            · simp [hzy] at hbc
            · have hxz : ¬ x.toNat < z.toNat := by omega
              have hzx : ¬ z.toNat < x.toNat := by omega
              simp only [hyx, if_false] at hab
              simp only [hzy, if_false] at hbc
              simp only [hxz, hzx, if_false]
              exact ih ys zs hab hbc

instance : IsTotal Trade tradeGE :=
  ⟨fun a b => by
    unfold tradeGE pyStrLe
    exact charListLe_total b.created_time.data a.created_time.data⟩

instance : IsTrans Trade tradeGE :=
  ⟨fun _ _ _ h1 h2 => by
    unfold tradeGE pyStrLe at *
    exact charListLe_trans _ _ _ h2 h1⟩

/-- The line `sorted_trades = sorted(trades, key=lambda t: t.get('created_time', ''),
reverse=True)` of the source: a stable sort placing larger time strings first.
Every stable sort of a total preorder yields the same list, so Mathlib's
stable insertion sort is an exact model of Python's stable sort. -/
def sortTradesDesc (trades : List Trade) : List Trade :=
  List.insertionSort tradeGE trades

/-- The body of one iteration of either scan loop in `find_price_at_cutoff`:
skip a record with an empty time string, skip one whose time fails to parse
(the `except: continue`), skip one whose parsed time is after the bound, skip
one with `price` equal to `None`; otherwise report the price and parsed time. -/
def tradeHit (parse : String → Option Int) (bound : Int) (t : Trade) :
    Option (ℚ × Int) :=
  if t.created_time = "" then none
  else
    match parse t.created_time with
    | none => none
    | some ts =>
      if ts ≤ bound then
        match t.price with
        | some p => some (p, ts)
        | none => none
      else none

/-- One scan loop of `find_price_at_cutoff`: walk the (already sorted) list
and return price, parsed time and the full window size `len` at the first
record accepted by `tradeHit`; `none` when every record is skipped. -/
def scanFor (parse : String → Option Int) (bound : Int) (len : Nat) :
    List Trade → Option (ℚ × Int × Nat)
  | [] => none
  | t :: rest =>
    match tradeHit parse bound t with
    | some (p, ts) => some (p, ts, len)
    | none => scanFor parse bound len rest

/-- The resolver `find_price_at_cutoff(trades, cutoff_ts, close_ts)` of
`src/experiments/build_dataset.py`: empty input short-circuits to
`(None, None, 0)`; otherwise the list is sorted by time string descending and
scanned first against the cutoff time, then against the close time, and the
triple `(None, None, len(trades))` is returned when both scans fail. -/
def find_price_at_cutoff (parse : String → Option Int) (trades : List Trade)
    (cutoff_ts close_ts : Int) : Option ℚ × Option Int × Nat :=
  if trades = [] then (none, none, 0)
  else
    let sorted_trades := sortTradesDesc trades
    match scanFor parse cutoff_ts trades.length sorted_trades with
    | some (p, ts, n) => (some p, some ts, n)
    | none =>
      match scanFor parse close_ts trades.length sorted_trades with
      | some (p, ts, n) => (some p, some ts, n)
      | none => (none, none, trades.length)

/-- Exception-explicit variant of `tradeHit`: the external time-string
library may signal an error, which the `try/except: continue` of the source
turns into a skip. -/
def tradeHitE (parse : String → Except String Int) (bound : Int) (t : Trade) :
    Option (ℚ × Int) :=
  if t.created_time = "" then none
  else
    match parse t.created_time with
    | Except.error _ => none
    | Except.ok ts =>
      if ts ≤ bound then
        match t.price with
        | some p => some (p, ts)
        | none => none
      else none

/-- Exception-explicit variant of `scanFor`. -/
def scanForE (parse : String → Except String Int) (bound : Int) (len : Nat) :
    List Trade → Option (ℚ × Int × Nat)
  | [] => none
  | t :: rest =>
    match tradeHitE parse bound t with
    | some (p, ts) => some (p, ts, len)
    | none => scanForE parse bound len rest

/-- Exception-explicit variant of `find_price_at_cutoff`: the result type
records whether an error escapes the routine.  Since the only fallible
operation, time-string parsing, is wrapped in `try/except: continue` in the
source, no branch produces `Except.error`. -/
def find_price_at_cutoffE (parse : String → Except String Int)
    (trades : List Trade) (cutoff_ts close_ts : Int) :
    Except String (Option ℚ × Option Int × Nat) :=
  if trades = [] then Except.ok (none, none, 0)
  else
    let sorted_trades := sortTradesDesc trades
    match scanForE parse cutoff_ts trades.length sorted_trades with
    | some (p, ts, n) => Except.ok (some p, some ts, n)
    | none =>
      match scanForE parse close_ts trades.length sorted_trades with
      | some (p, ts, n) => Except.ok (some p, some ts, n)
      | none => Except.ok (none, none, trades.length)

/-- Python truthiness combined with positivity, as in the caller's test
`if last_price and last_price > 0`: `None`, zero and negative values all
fail the test. -/
def truthyPos : Option ℚ → Bool
  | none => false
  | some p => decide (0 < p)

/-- The caller-side quote fallback of `build_dataset` (the block starting
`if price_at_cutoff is None:`): when the resolver produced no price,
substitute `last_price` when it is present and positive, otherwise
`previous_price` when it is present and positive, in either case using the
cutoff time itself as the reference timestamp and reporting zero trades
used; otherwise leave the resolver's triple unchanged. -/
def quote_fallback (r : Option ℚ × Option Int × Nat) (cutoff_ts : Int)
    (last_price previous_price : Option ℚ) : Option ℚ × Option Int × Nat :=
  match r with
  | (some p, ts, n) => (some p, ts, n)
  | (none, ts, n) =>
    if truthyPos last_price then (last_price, some cutoff_ts, 0)
    else if truthyPos previous_price then (previous_price, some cutoff_ts, 0)
    else (none, ts, n)

/-- A concrete stand-in for the external timestamp library on the clock
times appearing in the worked examples of the specification, mapping a
wall-clock string to minutes since midnight. -/
def exampleParse (s : String) : Option Int :=
  if s = "10:00" then some 600
  else if s = "11:30" then some 690
  else if s = "13:00" then some 780
  else if s = "15:00" then some 900
  else none


theorem tradeHit_intro (parse : String → Option Int) (bound : Int) (t : Trade)
    (p : ℚ) (ts : Int) (hct : t.created_time ≠ "")
    (hparse : parse t.created_time = some ts) (hb : ts ≤ bound)
    (hpr : t.price = some p) :
    tradeHit parse bound t = some (p, ts) := by
  unfold tradeHit
  rw [if_neg hct, hparse]
  dsimp only
  rw [if_pos hb, hpr]

theorem tradeHit_elim (parse : String → Option Int) (bound : Int) (t : Trade)
    (p : ℚ) (ts : Int) (h : tradeHit parse bound t = some (p, ts)) :
    t.created_time ≠ "" ∧ parse t.created_time = some ts ∧ t.price = some p ∧
      ts ≤ bound := by
  unfold tradeHit at h
  by_cases hct : t.created_time = ""
  · rw [if_pos hct] at h; exact absurd h (by simp)
  · rw [if_neg hct] at h
    cases hparse : parse t.created_time with
    | none => rw [hparse] at h; exact absurd h (by simp)
    | some ts0 =>
      rw [hparse] at h
      dsimp only at h
      by_cases hb : ts0 ≤ bound
      · rw [if_pos hb] at h
        cases hpr : t.price with
        | none => rw [hpr] at h; exact absurd h (by simp)
        | some p0 =>
          rw [hpr] at h
          dsimp only at h
          injection h with h
          obtain ⟨h1, h2⟩ := Prod.mk.inj h
          subst h1
          subst h2
          exact ⟨hct, rfl, rfl, hb⟩
      · rw [if_neg hb] at h
        exact absurd h (by simp)

theorem tradeHit_none_of_gt (parse : String → Option Int) (bound : Int) (t : Trade)
    (h : ∀ ts, parse t.created_time = some ts → bound < ts) :
    tradeHit parse bound t = none := by
  unfold tradeHit
  by_cases hct : t.created_time = ""
  · rw [if_pos hct]
  · rw [if_neg hct]
    cases hparse : parse t.created_time with
    | none => rfl
    | some ts0 =>
      dsimp only
      rw [if_neg (not_le.mpr (h ts0 hparse))]

theorem scanFor_eq_some (parse : String → Option Int) (bound : Int) (len : Nat) :
    ∀ (l : List Trade) (p : ℚ) (ts : Int) (n : Nat),
      scanFor parse bound len l = some (p, ts, n) →
      n = len ∧ ∃ t ∈ l, t.created_time ≠ "" ∧ parse t.created_time = some ts ∧
        t.price = some p ∧ ts ≤ bound := by
  intro l
  induction l with
  | nil => intro p ts n h; simp [scanFor] at h
  | cons t rest ih =>
    intro p ts n h
    rw [scanFor] at h
    cases hh : tradeHit parse bound t with
    | none =>
      rw [hh] at h
      dsimp only at h
      obtain ⟨hn, u, hu, hrest⟩ := ih p ts n h
      exact ⟨hn, u, List.mem_cons_of_mem _ hu, hrest⟩
    | some pr =>
      obtain ⟨p0, ts0⟩ := pr
      rw [hh] at h
      dsimp only at h
      injection h with h
      obtain ⟨h1, h2⟩ := Prod.mk.inj h
      obtain ⟨h2, h3⟩ := Prod.mk.inj h2
      subst h1
      subst h2
      subst h3
      obtain ⟨hct, hp, hpr, hb⟩ := tradeHit_elim parse bound t p0 ts0 hh
      exact ⟨rfl, t, List.mem_cons_self t rest, hct, hp, hpr, hb⟩

theorem scanFor_eq_none_of_gt (parse : String → Option Int) (bound : Int) (len : Nat) :
    ∀ l : List Trade,
      (∀ t ∈ l, ∀ ts, parse t.created_time = some ts → bound < ts) →
      scanFor parse bound len l = none := by
  intro l
  induction l with
  | nil => intro _; rfl
  | cons t rest ih =>
    intro h
    rw [scanFor, tradeHit_none_of_gt parse bound t (h t (List.mem_cons_self t rest))]
    exact ih fun u hu => h u (List.mem_cons_of_mem _ hu)

theorem scanFor_first (parse : String → Option Int) (bound : Int) (len : Nat) :
    ∀ l : List Trade,
      (∀ t ∈ l, t.created_time ≠ "" ∧ (∃ ts, parse t.created_time = some ts) ∧
        ∃ p, t.price = some p) →
      l.Pairwise (fun a b => ∀ tsa tsb, parse a.created_time = some tsa →
        parse b.created_time = some tsb → tsb ≤ tsa) →
      (∃ t ∈ l, ∃ ts, parse t.created_time = some ts ∧ ts ≤ bound) →
      ∃ p ts, scanFor parse bound len l = some (p, ts, len) ∧
        (∃ t ∈ l, t.created_time ≠ "" ∧ parse t.created_time = some ts ∧
          t.price = some p ∧ ts ≤ bound) ∧
        ∀ t ∈ l, ∀ ts', parse t.created_time = some ts' → ts' ≤ bound → ts' ≤ ts := by
  intro l
  induction l with
  | nil => intro _ _ hEx; simp at hEx
  | cons t rest ih =>
    intro hWF hPair hEx
    obtain ⟨hct, ⟨ts0, hts0⟩, ⟨p0, hp0⟩⟩ := hWF t (List.mem_cons_self t rest)
    obtain ⟨hHead, hRest⟩ := List.pairwise_cons.mp hPair
    by_cases hb : ts0 ≤ bound
    · have hhit : tradeHit parse bound t = some (p0, ts0) :=
        tradeHit_intro parse bound t p0 ts0 hct hts0 hb hp0
      refine ⟨p0, ts0, ?_, ⟨t, List.mem_cons_self t rest, hct, hts0, hp0, hb⟩, ?_⟩
      · rw [scanFor, hhit]
      · intro u hu ts' hts' _
        rcases List.mem_cons.mp hu with rfl | hu'
        · rw [hts0] at hts'
          injection hts' with e
          exact le_of_eq e.symm
        · exact hHead u hu' ts0 ts' hts0 hts'
    · have hhit : tradeHit parse bound t = none := by
        unfold tradeHit
        rw [if_neg hct, hts0]
        dsimp only
        rw [if_neg hb]
      obtain ⟨u, hu, tsu, htsu, hle⟩ := hEx
      rcases List.mem_cons.mp hu with rfl | hu'
      · rw [hts0] at htsu
        injection htsu with e
        exact absurd (e ▸ hle) hb
      obtain ⟨p, ts, hscan, ⟨v, hv, hvmem⟩, hmax⟩ :=
        ih (fun w hw => hWF w (List.mem_cons_of_mem _ hw)) hRest ⟨u, hu', tsu, htsu, hle⟩
      refine ⟨p, ts, ?_, ⟨v, List.mem_cons_of_mem _ hv, hvmem⟩, ?_⟩
      · rw [scanFor, hhit]
        exact hscan
      · intro w hw ts' hts' hle'
        rcases List.mem_cons.mp hw with rfl | hw'
        · rw [hts0] at hts'
          injection hts' with e
          exact absurd (e ▸ hle') hb
        · exact hmax w hw' ts' hts' hle'

theorem mem_sortTradesDesc (l : List Trade) (t : Trade) :
    t ∈ sortTradesDesc l ↔ t ∈ l :=
  (List.perm_insertionSort tradeGE l).mem_iff

theorem sortTradesDesc_sorted (l : List Trade) :
    List.Sorted tradeGE (sortTradesDesc l) :=
  List.sorted_insertionSort tradeGE l

theorem sortTradesDesc_pairwise_parse (parse : String → Option Int)
    (trades : List Trade)
    (hMono : ∀ t ∈ trades, ∀ t' ∈ trades, ∀ ts ts', parse t.created_time = some ts →
      parse t'.created_time = some ts' → pyStrLe t.created_time t'.created_time = true →
      ts ≤ ts') :
    (sortTradesDesc trades).Pairwise (fun a b => ∀ tsa tsb,
      parse a.created_time = some tsa → parse b.created_time = some tsb → tsb ≤ tsa) := by
  refine List.Pairwise.imp_of_mem ?_ (sortTradesDesc_sorted trades)
  intro a b ha hb hge tsa tsb hpa hpb
  exact hMono b ((mem_sortTradesDesc trades b).mp hb) a
    ((mem_sortTradesDesc trades a).mp ha) tsb tsa hpb hpa hge

theorem find_price_eq_of_scan1 (parse : String → Option Int) (trades : List Trade)
    (cutoff_ts close_ts : Int) (p : ℚ) (ts : Int) (n : Nat) (hne : trades ≠ [])
    (h : scanFor parse cutoff_ts trades.length (sortTradesDesc trades) = some (p, ts, n)) :
    find_price_at_cutoff parse trades cutoff_ts close_ts = (some p, some ts, n) := by
  unfold find_price_at_cutoff
  rw [if_neg hne]
  dsimp only
  rw [h]

theorem find_price_eq_of_scan2 (parse : String → Option Int) (trades : List Trade)
    (cutoff_ts close_ts : Int) (p : ℚ) (ts : Int) (n : Nat) (hne : trades ≠ [])
    (h1 : scanFor parse cutoff_ts trades.length (sortTradesDesc trades) = none)
    (h2 : scanFor parse close_ts trades.length (sortTradesDesc trades) = some (p, ts, n)) :
    find_price_at_cutoff parse trades cutoff_ts close_ts = (some p, some ts, n) := by
  unfold find_price_at_cutoff
  rw [if_neg hne]
  dsimp only
  rw [h1]
  dsimp only
  rw [h2]

theorem find_price_eq_of_none (parse : String → Option Int) (trades : List Trade)
    (cutoff_ts close_ts : Int) (hne : trades ≠ [])
    (h1 : scanFor parse cutoff_ts trades.length (sortTradesDesc trades) = none)
    (h2 : scanFor parse close_ts trades.length (sortTradesDesc trades) = none) :
    find_price_at_cutoff parse trades cutoff_ts close_ts = (none, none, trades.length) := by
  unfold find_price_at_cutoff
  rw [if_neg hne]
  dsimp only
  rw [h1]
  dsimp only
  rw [h2]

theorem tradeHitE_eq (parse : String → Except String Int) (bound : Int) (t : Trade) :
    tradeHitE parse bound t = tradeHit (fun s => (parse s).toOption) bound t := by
  unfold tradeHitE tradeHit
  by_cases hct : t.created_time = ""
  · rw [if_pos hct, if_pos hct]
  · rw [if_neg hct, if_neg hct]
    cases hparse : parse t.created_time with
    | error e => simp [hparse, Except.toOption]
    | ok ts => simp [hparse, Except.toOption]

theorem scanForE_eq (parse : String → Except String Int) (bound : Int) (len : Nat) :
    ∀ l : List Trade,
      scanForE parse bound len l = scanFor (fun s => (parse s).toOption) bound len l := by
  intro l
  induction l with
  | nil => rfl
  | cons t rest ih =>
    rw [scanForE, scanFor, tradeHitE_eq]
    cases hh : tradeHit (fun s => (parse s).toOption) bound t with
    | some pr =>
      obtain ⟨p, ts⟩ := pr
      rfl
    | none =>
      dsimp only
      exact ih

theorem quote_fallback_none_uses_last (r : Option ℚ × Option Int × Nat)
    (cutoff_ts : Int) (last_price previous_price : Option ℚ) (h : r.1 = none)
    (lp : ℚ) (hlp : last_price = some lp) (hpos : 0 < lp) :
    quote_fallback r cutoff_ts last_price previous_price
      = (some lp, some cutoff_ts, 0) := by
  obtain ⟨r1, r2, r3⟩ := r
  dsimp only at h
  subst h
  unfold quote_fallback
  dsimp only
  have ht : truthyPos last_price = true := by
    rw [hlp]
    unfold truthyPos
    exact decide_eq_true hpos
  rw [if_pos ht, hlp]

theorem quote_fallback_none_uses_previous (r : Option ℚ × Option Int × Nat)
    (cutoff_ts : Int) (last_price previous_price : Option ℚ) (h : r.1 = none)
    (hlast : truthyPos last_price = false)
    (pp : ℚ) (hpp : previous_price = some pp) (hpos : 0 < pp) :
    quote_fallback r cutoff_ts last_price previous_price
      = (some pp, some cutoff_ts, 0) := by
  obtain ⟨r1, r2, r3⟩ := r
  dsimp only at h
  subst h
  unfold quote_fallback
  dsimp only
  have ht : truthyPos previous_price = true := by
    rw [hpp]
    unfold truthyPos
    exact decide_eq_true hpos
  rw [if_neg (by rw [hlast]; exact Bool.false_ne_true), if_pos ht, hpp]

/-- C1: for a non-empty trades list of well-formed records (non-empty time
string that parses, price present, string order agreeing with parsed-time
order, as produced by a consistent timestamp format) containing at least one
record at or before the cutoff, the resolver orders trades by time
descending and returns the price and parsed time of the record with the
latest timestamp at or before the cutoff, reporting
trades_used = len(trades), the size of the full window. -/
theorem find_price_at_cutoff_latest_before_cutoff
    (parse : String → Option Int) (trades : List Trade) (cutoff_ts close_ts : Int)
    (hWF : ∀ t ∈ trades, t.created_time ≠ "" ∧ (∃ ts, parse t.created_time = some ts) ∧
      ∃ p, t.price = some p)
    (hMono : ∀ t ∈ trades, ∀ t' ∈ trades, ∀ ts ts', parse t.created_time = some ts →
      parse t'.created_time = some ts' → pyStrLe t.created_time t'.created_time = true →
      ts ≤ ts')
    (hEx : ∃ t ∈ trades, ∃ ts, parse t.created_time = some ts ∧ ts ≤ cutoff_ts) :
    ∃ p ts, find_price_at_cutoff parse trades cutoff_ts close_ts
        = (some p, some ts, trades.length) ∧
      (∃ t ∈ trades, parse t.created_time = some ts ∧ t.price = some p ∧ ts ≤ cutoff_ts) ∧
      ∀ t ∈ trades, ∀ ts', parse t.created_time = some ts' → ts' ≤ cutoff_ts → ts' ≤ ts := by
  have hne : trades ≠ [] := by
    obtain ⟨u, hu, -⟩ := hEx
    exact List.ne_nil_of_mem hu
  obtain ⟨p, ts, hscan, ⟨v, hv, _, hvp, hvpr, hvb⟩, hmax⟩ :=
    scanFor_first parse cutoff_ts trades.length (sortTradesDesc trades)
      (fun t ht => hWF t ((mem_sortTradesDesc trades t).mp ht))
      (sortTradesDesc_pairwise_parse parse trades hMono)
      (by
        obtain ⟨u, hu, hts⟩ := hEx
        exact ⟨u, (mem_sortTradesDesc trades u).mpr hu, hts⟩)
  exact ⟨p, ts,
    find_price_eq_of_scan1 parse trades cutoff_ts close_ts p ts trades.length hne hscan,
    ⟨v, (mem_sortTradesDesc trades v).mp hv, hvp, hvpr, hvb⟩,
    fun t ht ts' hts' hle => hmax t ((mem_sortTradesDesc trades t).mpr ht) ts' hts' hle⟩

theorem find_price_at_cutoff_latest_before_cutoff_witness :
    ∃ p ts, find_price_at_cutoff exampleParse [⟨"11:30", some (65/100)⟩] 720 840
        = (some p, some ts, 1) ∧
      (∃ t ∈ [(⟨"11:30", some (65/100)⟩ : Trade)],
        exampleParse t.created_time = some ts ∧ t.price = some p ∧ ts ≤ 720) ∧
      ∀ t ∈ [(⟨"11:30", some (65/100)⟩ : Trade)], ∀ ts',
        exampleParse t.created_time = some ts' → ts' ≤ 720 → ts' ≤ ts := by
  apply find_price_at_cutoff_latest_before_cutoff exampleParse
      [⟨"11:30", some (65/100)⟩] 720 840
  · intro t ht
    rw [List.mem_singleton] at ht
    subst ht
    exact ⟨by decide, ⟨690, rfl⟩, ⟨65/100, rfl⟩⟩
  · intro t ht t' ht' ts ts' hts hts' _
    rw [List.mem_singleton] at ht ht'
    subst ht
    subst ht'
    rw [hts] at hts'
    injection hts' with e
    exact le_of_eq e
  · exact ⟨⟨"11:30", some (65/100)⟩, List.mem_singleton.mpr rfl, 690, rfl, by norm_num⟩

/-- C2: when every well-formed record is strictly after the cutoff but at
least one is at or before the close time, the resolver's fallback scan of
the same descending-ordered list returns the price and parsed time of the
record with the latest timestamp at or before the close time, with
trades_used = len(trades). -/
theorem find_price_at_cutoff_close_fallback
    (parse : String → Option Int) (trades : List Trade) (cutoff_ts close_ts : Int)
    (hWF : ∀ t ∈ trades, t.created_time ≠ "" ∧ (∃ ts, parse t.created_time = some ts) ∧
      ∃ p, t.price = some p)
    (hMono : ∀ t ∈ trades, ∀ t' ∈ trades, ∀ ts ts', parse t.created_time = some ts →
      parse t'.created_time = some ts' → pyStrLe t.created_time t'.created_time = true →
      ts ≤ ts')
    (hAfter : ∀ t ∈ trades, ∀ ts, parse t.created_time = some ts → cutoff_ts < ts)
    (hEx : ∃ t ∈ trades, ∃ ts, parse t.created_time = some ts ∧ ts ≤ close_ts) :
    ∃ p ts, find_price_at_cutoff parse trades cutoff_ts close_ts
        = (some p, some ts, trades.length) ∧
      (∃ t ∈ trades, parse t.created_time = some ts ∧ t.price = some p ∧ ts ≤ close_ts) ∧
      ∀ t ∈ trades, ∀ ts', parse t.created_time = some ts' → ts' ≤ close_ts → ts' ≤ ts := by
  have hne : trades ≠ [] := by
    obtain ⟨u, hu, -⟩ := hEx
    exact List.ne_nil_of_mem hu
  have h1 : scanFor parse cutoff_ts trades.length (sortTradesDesc trades) = none :=
    scanFor_eq_none_of_gt parse cutoff_ts trades.length (sortTradesDesc trades)
      (fun t ht ts hts => hAfter t ((mem_sortTradesDesc trades t).mp ht) ts hts)
  obtain ⟨p, ts, hscan, ⟨v, hv, _, hvp, hvpr, hvb⟩, hmax⟩ :=
    scanFor_first parse close_ts trades.length (sortTradesDesc trades)
      (fun t ht => hWF t ((mem_sortTradesDesc trades t).mp ht))
      (sortTradesDesc_pairwise_parse parse trades hMono)
      (by
        obtain ⟨u, hu, hts⟩ := hEx
        exact ⟨u, (mem_sortTradesDesc trades u).mpr hu, hts⟩)
  exact ⟨p, ts,
    find_price_eq_of_scan2 parse trades cutoff_ts close_ts p ts trades.length hne h1 hscan,
    ⟨v, (mem_sortTradesDesc trades v).mp hv, hvp, hvpr, hvb⟩,
    fun t ht ts' hts' hle => hmax t ((mem_sortTradesDesc trades t).mpr ht) ts' hts' hle⟩

theorem find_price_at_cutoff_close_fallback_witness :
    ∃ p ts, find_price_at_cutoff exampleParse [⟨"13:00", some (70/100)⟩] 720 840
        = (some p, some ts, 1) ∧
      (∃ t ∈ [(⟨"13:00", some (70/100)⟩ : Trade)],
        exampleParse t.created_time = some ts ∧ t.price = some p ∧ ts ≤ 840) ∧
      ∀ t ∈ [(⟨"13:00", some (70/100)⟩ : Trade)], ∀ ts',
        exampleParse t.created_time = some ts' → ts' ≤ 840 → ts' ≤ ts := by
  apply find_price_at_cutoff_close_fallback exampleParse
      [⟨"13:00", some (70/100)⟩] 720 840
  · intro t ht
    rw [List.mem_singleton] at ht
    subst ht
    exact ⟨by decide, ⟨780, rfl⟩, ⟨70/100, rfl⟩⟩
  · intro t ht t' ht' ts ts' hts hts' _
    rw [List.mem_singleton] at ht ht'
    subst ht
    subst ht'
    rw [hts] at hts'
    injection hts' with e
    exact le_of_eq e
  · intro t ht ts hts
    rw [List.mem_singleton] at ht
    subst ht
    injection hts with e
    omega
  · exact ⟨⟨"13:00", some (70/100)⟩, List.mem_singleton.mpr rfl, 780, rfl, by norm_num⟩

/-- C4: on the empty trades list the resolver returns an absent price, an
absent reference timestamp and trades_used = 0, whatever the cutoff and
close timestamps. -/
theorem find_price_at_cutoff_nil (parse : String → Option Int)
    (cutoff_ts close_ts : Int) :
    find_price_at_cutoff parse [] cutoff_ts close_ts = (none, none, 0) := rfl

/-- C5: for a non-empty trades list in which every record that parses is
strictly after the close time (under the specification's standing assumption
that the cutoff is at or before the close), both scans fail and the
resolver returns an absent price, an absent reference timestamp and
trades_used = len(trades). -/
theorem find_price_at_cutoff_all_after_close
    (parse : String → Option Int) (trades : List Trade) (cutoff_ts close_ts : Int)
    (hne : trades ≠ []) (hcc : cutoff_ts ≤ close_ts)
    (hAll : ∀ t ∈ trades, ∀ ts, parse t.created_time = some ts → close_ts < ts) :
    find_price_at_cutoff parse trades cutoff_ts close_ts
      = (none, none, trades.length) := by
  have h2 : scanFor parse close_ts trades.length (sortTradesDesc trades) = none :=
    scanFor_eq_none_of_gt parse close_ts trades.length (sortTradesDesc trades)
      (fun t ht ts hts => hAll t ((mem_sortTradesDesc trades t).mp ht) ts hts)
  have h1 : scanFor parse cutoff_ts trades.length (sortTradesDesc trades) = none :=
    scanFor_eq_none_of_gt parse cutoff_ts trades.length (sortTradesDesc trades)
      (fun t ht ts hts =>
        lt_of_le_of_lt hcc (hAll t ((mem_sortTradesDesc trades t).mp ht) ts hts))
  exact find_price_eq_of_none parse trades cutoff_ts close_ts hne h1 h2

theorem find_price_at_cutoff_all_after_close_witness :
    find_price_at_cutoff exampleParse [⟨"15:00", some (80/100)⟩] 720 840
      = (none, none, 1) := by
  apply find_price_at_cutoff_all_after_close exampleParse
      [⟨"15:00", some (80/100)⟩] 720 840 (by simp) (by norm_num)
  intro t ht ts hts
  rw [List.mem_singleton] at ht
  subst ht
  injection hts with e
  omega

/-- C3: when the resolver's result carries an absent price, the caller's
fallback substitutes the market's last-known quote — last_price when present
and positive, otherwise previous_price when present and positive — uses the
cutoff time itself as the reference timestamp, and reports trades_used = 0
to flag that the value came from a quote rather than a trade. -/
theorem quote_fallback_on_absent_price (parse : String → Option Int)
    (trades : List Trade) (cutoff_ts close_ts : Int)
    (last_price previous_price : Option ℚ)
    (h : (find_price_at_cutoff parse trades cutoff_ts close_ts).1 = none) :
    (∀ lp, last_price = some lp → 0 < lp →
      quote_fallback (find_price_at_cutoff parse trades cutoff_ts close_ts)
          cutoff_ts last_price previous_price = (some lp, some cutoff_ts, 0)) ∧
    (truthyPos last_price = false → ∀ pp, previous_price = some pp → 0 < pp →
      quote_fallback (find_price_at_cutoff parse trades cutoff_ts close_ts)
          cutoff_ts last_price previous_price = (some pp, some cutoff_ts, 0)) :=
  ⟨fun lp hlp hpos => quote_fallback_none_uses_last _ cutoff_ts last_price
      previous_price h lp hlp hpos,
    fun hlast pp hpp hpos => quote_fallback_none_uses_previous _ cutoff_ts last_price
      previous_price h hlast pp hpp hpos⟩

theorem quote_fallback_on_absent_price_witness :
    quote_fallback (find_price_at_cutoff exampleParse [] 720 840) 720
        (some (1/2)) none = (some (1/2), some 720, 0) :=
  (quote_fallback_on_absent_price exampleParse [] 720 840 (some (1/2)) none rfl).1
    (1/2) rfl (by norm_num)

/-- C6: the two worked examples of the specification. Trades at 10:00
(price 0.60), 11:30 (price 0.65) and 13:00 (price 0.70) with cutoff 12:00
and close 14:00 resolve to price 0.65 at reference 11:30 with trades_used 3;
a single trade at 15:00 (price 0.80) with the same cutoff and close resolves
to absent price, absent reference, trades_used 1. Times are minutes since
midnight and prices are fractions of a dollar. -/
theorem find_price_at_cutoff_worked_examples :
    find_price_at_cutoff exampleParse
        [⟨"10:00", some (60/100)⟩, ⟨"11:30", some (65/100)⟩, ⟨"13:00", some (70/100)⟩]
        720 840
      = (some (65/100), some 690, 3) ∧
    find_price_at_cutoff exampleParse [⟨"15:00", some (80/100)⟩] 720 840
      = (none, none, 1) := ⟨rfl, rfl⟩

/-- C7: the resolver is deterministic — two calls with identical trades,
cutoff and close timestamps (and the same external time-string library)
yield identical results. In this embedding the routine is a pure function
of its arguments; the sort it performs acts on a copy, leaving the input
list untouched. -/
theorem find_price_at_cutoff_deterministic (parse parse' : String → Option Int)
    (trades trades' : List Trade) (cutoff_ts cutoff_ts' close_ts close_ts' : Int)
    (h1 : parse = parse') (h2 : trades = trades') (h3 : cutoff_ts = cutoff_ts')
    (h4 : close_ts = close_ts') :
    find_price_at_cutoff parse trades cutoff_ts close_ts
      = find_price_at_cutoff parse' trades' cutoff_ts' close_ts' := by
  subst h1
  subst h2
  subst h3
  subst h4
  rfl

theorem find_price_at_cutoff_deterministic_witness :
    find_price_at_cutoff exampleParse [⟨"11:30", some (65/100)⟩] 720 840
      = find_price_at_cutoff exampleParse [⟨"11:30", some (65/100)⟩] 720 840 :=
  find_price_at_cutoff_deterministic exampleParse exampleParse
    [⟨"11:30", some (65/100)⟩] [⟨"11:30", some (65/100)⟩] 720 720 840 840
    rfl rfl rfl rfl

/-- C8: the resolver never signals an error. In the exception-explicit
embedding, where the external time-string library may raise on any record,
the routine still returns normally for every input: every raise is caught by
the source's try/except and turned into a skip, so the result is exactly
that of the total resolver in which a raising record is one that fails to
parse. -/
theorem find_price_at_cutoffE_never_errors (parse : String → Except String Int)
    (trades : List Trade) (cutoff_ts close_ts : Int) :
    find_price_at_cutoffE parse trades cutoff_ts close_ts
      = Except.ok (find_price_at_cutoff (fun s => (parse s).toOption)
          trades cutoff_ts close_ts) := by
  unfold find_price_at_cutoffE find_price_at_cutoff
  by_cases hne : trades = []
  · rw [if_pos hne, if_pos hne]
  · rw [if_neg hne, if_neg hne]
    dsimp only
    rw [scanForE_eq, scanForE_eq]
    cases h1 : scanFor (fun s => (parse s).toOption) cutoff_ts trades.length
        (sortTradesDesc trades) with
    | some pr =>
      obtain ⟨p, ts, n⟩ := pr
      rfl
    | none =>
      dsimp only
      cases h2 : scanFor (fun s => (parse s).toOption) close_ts trades.length
          (sortTradesDesc trades) with
      | some pr =>
        obtain ⟨p, ts, n⟩ := pr
        rfl
      | none => rfl

/-- C9: the trades_used component of the resolver's result always equals
len(trades) — on the empty list, on a cutoff-scan hit, on a close-scan hit
and when both scans fail — so the routine itself reports 0 exactly when the
trades list is empty, and the count never reflects how many records were
scanned or usable. -/
theorem find_price_at_cutoff_trades_used (parse : String → Option Int)
    (trades : List Trade) (cutoff_ts close_ts : Int) :
    (find_price_at_cutoff parse trades cutoff_ts close_ts).2.2 = trades.length ∧
    ((find_price_at_cutoff parse trades cutoff_ts close_ts).2.2 = 0 ↔ trades = []) := by
  have hlen : (find_price_at_cutoff parse trades cutoff_ts close_ts).2.2
      = trades.length := by
    by_cases hne : trades = []
    · subst hne; rfl
    · unfold find_price_at_cutoff
      rw [if_neg hne]
      dsimp only
      cases h1 : scanFor parse cutoff_ts trades.length (sortTradesDesc trades) with
      | some pr =>
        obtain ⟨p, ts, n⟩ := pr
        dsimp only
        exact (scanFor_eq_some parse cutoff_ts trades.length _ p ts n h1).1
      | none =>
        dsimp only
        cases h2 : scanFor parse close_ts trades.length (sortTradesDesc trades) with
        | some pr =>
          obtain ⟨p, ts, n⟩ := pr
          dsimp only
          exact (scanFor_eq_some parse close_ts trades.length _ p ts n h2).1
        | none => rfl
  exact ⟨hlen, by rw [hlen]; exact List.length_eq_zero⟩

/-- C10: the resolver's price and reference timestamp are both absent or
both present, and when present they are the price field and parsed time of
an actual record of the input list whose time string is non-empty and
parses and whose price is present; records failing any of these checks are
never the ones selected, yet every record counts toward trades_used, which
always equals the length of the input list. -/
theorem find_price_at_cutoff_provenance (parse : String → Option Int)
    (trades : List Trade) (cutoff_ts close_ts : Int) :
    (find_price_at_cutoff parse trades cutoff_ts close_ts).2.2 = trades.length ∧
    (((find_price_at_cutoff parse trades cutoff_ts close_ts).1 = none ∧
      (find_price_at_cutoff parse trades cutoff_ts close_ts).2.1 = none) ∨
    ∃ p ts t, t ∈ trades ∧
      (find_price_at_cutoff parse trades cutoff_ts close_ts).1 = some p ∧
      (find_price_at_cutoff parse trades cutoff_ts close_ts).2.1 = some ts ∧
      t.created_time ≠ "" ∧ parse t.created_time = some ts ∧ t.price = some p) := by
  by_cases hne : trades = []
  · subst hne
    exact ⟨rfl, Or.inl ⟨rfl, rfl⟩⟩
  · unfold find_price_at_cutoff
    rw [if_neg hne]
    dsimp only
    cases h1 : scanFor parse cutoff_ts trades.length (sortTradesDesc trades) with
    | some pr =>
      obtain ⟨p, ts, n⟩ := pr
      dsimp only
      obtain ⟨hn, t, ht, hct, hp, hpr, -⟩ :=
        scanFor_eq_some parse cutoff_ts trades.length _ p ts n h1
      exact ⟨hn, Or.inr
        ⟨p, ts, t, (mem_sortTradesDesc trades t).mp ht, rfl, rfl, hct, hp, hpr⟩⟩
    | none =>
      dsimp only
      cases h2 : scanFor parse close_ts trades.length (sortTradesDesc trades) with
      | some pr =>
        obtain ⟨p, ts, n⟩ := pr
        dsimp only
        obtain ⟨hn, t, ht, hct, hp, hpr, -⟩ :=
          scanFor_eq_some parse close_ts trades.length _ p ts n h2
        exact ⟨hn, Or.inr
          ⟨p, ts, t, (mem_sortTradesDesc trades t).mp ht, rfl, rfl, hct, hp, hpr⟩⟩
      | none => exact ⟨rfl, Or.inl ⟨rfl, rfl⟩⟩
